import Mathlib

/-!
Verification development for the release-sync script
`scripts/sync-release-to-supabase.js` of the photopick desktop release
repository.  The script's pure logic (filename classification, yml hash
scanning, version-record construction, upsert/demote persistence, and the
top-level control flow around the GitHub fetches) is embedded below as
executable Lean definitions; network responses and the database table are
passed in explicitly as values.

JavaScript string primitives used by the script (`includes`,
`toLowerCase`, `replace` with a string pattern, `split`, `trim`, the `||`
default operator) are modelled character-list-wise with JS semantics:
`replace(p, "")` removes only the first occurrence, `split(sep)[1]` is the
segment between the first and second occurrence of `sep`, and `||` falls
through on the empty string.
-/

/-- `startsWithChars pat s` : `s` begins with `pat` (character lists). -/
def startsWithChars : List Char → List Char → Bool
  | [], _ => true
  | _ :: _, [] => false
  | p :: ps, c :: cs => p == c && startsWithChars ps cs

/-- `charsContains pat s` : `pat` occurs as a contiguous substring of `s`. -/
def charsContains (pat : List Char) : List Char → Bool
  | [] => pat.isEmpty
  | c :: t => startsWithChars pat (c :: t) || charsContains pat t

/-- JS `s.includes(pat)`. -/
def jsIncludes (s pat : String) : Bool :=
  charsContains pat.toList s.toList

/-- JS `s.toLowerCase()` (ASCII case folding, which is all the script needs). -/
def jsToLower (s : String) : String :=
  String.mk (s.toList.map Char.toLower)

/-- JS `s.replace(pat, "")` with a string pattern: removes only the first
occurrence of `pat`, and returns `s` unchanged when `pat` does not occur. -/
def jsReplaceOnceChars (pat : List Char) : List Char → List Char
  | [] => []
  | c :: t =>
    if startsWithChars pat (c :: t) then (c :: t).drop pat.length
    else c :: jsReplaceOnceChars pat t

/-- String wrapper for `jsReplaceOnceChars`. -/
def jsReplaceOnce (s pat : String) : String :=
  String.mk (jsReplaceOnceChars pat.toList s.toList)

/-- JS `s.trim()`: strip whitespace from both ends. -/
def trimChars (s : List Char) : List Char :=
  ((s.dropWhile Char.isWhitespace).reverse.dropWhile Char.isWhitespace).reverse

/-- JS `content.split('\n')` on a character list. -/
def splitLinesChars : List Char → List (List Char)
  | [] => [[]]
  | c :: t =>
    match splitLinesChars t with
    | [] => [[c]]
    | l :: ls => if c = '\n' then [] :: l :: ls else (c :: l) :: ls

/-- Everything after the first occurrence of `sep` (empty if `sep` absent);
the tail part of JS `s.split(sep)` at the first cut. -/
def afterFirst (sep : List Char) : List Char → List Char
  | [] => []
  | c :: t =>
    if startsWithChars sep (c :: t) then (c :: t).drop sep.length
    else afterFirst sep t

/-- Everything before the first occurrence of `sep` (all of `s` if absent). -/
def beforeFirst (sep : List Char) : List Char → List Char
  | [] => []
  | c :: t =>
    if startsWithChars sep (c :: t) then []
    else c :: beforeFirst sep t

/-- JS `s.split(sep)[1]`: the segment strictly between the first occurrence
of `sep` and the next one (or the end of `s`).  The script only evaluates
this under a guard that `sep` occurs in `s`. -/
def jsSplitSecond (sep : List Char) (s : List Char) : List Char :=
  beforeFirst sep (afterFirst sep s)

/-- JS `x || y` for an optional string `x`: `y` when `x` is `null`/absent or
the empty string (both falsy), else `x`. -/
def jsOrElse (x : Option String) (y : String) : String :=
  match x with
  | none => y
  | some s => if s = "" then y else s

/-- JS truthiness of an optional environment-variable string. -/
def jsTruthy : Option String → Bool
  | none => false
  | some s => !(s == "")

/-- A release asset; the fields of the GitHub asset object the script reads. -/
structure Asset where
  name : String
  id : Nat
  browser_download_url : String
  size : Nat
deriving DecidableEq

/-- A GitHub release; the fields the script reads. -/
structure Release where
  tag_name : String
  id : Nat
  draft : Bool
  body : Option String
  published_at : Option String
  created_at : String
  assets : List Asset
deriving DecidableEq

/-- `appExtensions` from `isAppAsset`. -/
def appExtensions : List String :=
  [".dmg", ".exe", ".AppImage", ".deb", ".rpm"]

/-- `excludedPatterns` from `isAppAsset`. -/
def excludedPatterns : List String :=
  [".blockmap", ".yml", ".yaml", ".json", ".txt", ".md"]

/-- `isAppAsset(asset)`: reject when the lowercased name contains an
excluded pattern, else accept when it contains an entry of
`appExtensions` (the comparison is against the lowercased name). -/
def isAppAsset (asset : Asset) : Bool :=
  if excludedPatterns.any (fun pattern => jsIncludes (jsToLower asset.name) pattern) then
    false
  else
    appExtensions.any (fun ext => jsIncludes (jsToLower asset.name) ext)

/-- `detectPlatform(fileName)`. -/
def detectPlatform (fileName : String) : String :=
  if jsIncludes fileName ".dmg" then "darwin"
  else if jsIncludes fileName ".exe" then "win32"
  else if jsIncludes fileName ".AppImage" || jsIncludes fileName ".deb" then "linux"
  else "unknown"

/-- `detectArchitecture(fileName)`. -/
def detectArchitecture (fileName : String) : String :=
  if jsIncludes fileName "arm64" then "arm64"
  else if jsIncludes fileName "x64" || jsIncludes fileName "x86_64" then "x64"
  else if jsIncludes fileName "ia32" || jsIncludes fileName "i386" then "ia32"
  else "x64"

/-- One row of the `app_versions` table: the object the script upserts. -/
structure VersionRecord where
  version : String
  platform : String
  architecture : String
  file_name : String
  download_url : String
  file_size : Nat
  sha512 : String
  release_notes : String
  github_release_id : Nat
  github_asset_id : Nat
  created_at : String
  updated_at : String
  is_latest : Bool
deriving DecidableEq

/-- The `versionData` object built in `processAsset` (line 134); `sha512` is
the resolved hash and `now` stands for `new Date().toISOString()`. -/
def versionData (asset : Asset) (release : Release) (sha512 now : String) :
    VersionRecord :=
  { version := jsReplaceOnce release.tag_name "v"
  , platform := detectPlatform asset.name
  , architecture := detectArchitecture asset.name
  , file_name := asset.name
  , download_url := asset.browser_download_url
  , file_size := asset.size
  , sha512 := sha512
  , release_notes := jsOrElse release.body ("Version " ++ release.tag_name)
  , github_release_id := release.id
  , github_asset_id := asset.id
  , created_at := jsOrElse release.published_at release.created_at
  , updated_at := now
  , is_latest := true }

/-- The upsert conflict key `version,platform,architecture`. -/
def sameKey (x y : VersionRecord) : Bool :=
  x.version == y.version && x.platform == y.platform &&
    x.architecture == y.architecture

/-- Supabase `upsert` with `onConflict: 'version,platform,architecture'`:
overwrite the row with the same key when one exists, else insert.  The
table's unique constraint on that key means at most one row can conflict. -/
def upsertVersion (db : List VersionRecord) (r : VersionRecord) :
    List VersionRecord :=
  if db.any (fun x => sameKey x r) then
    db.map (fun x => if sameKey x r then r else x)
  else
    db ++ [r]

/-- The demotion update (lines 159-164): set `is_latest := false` on every
row with the same platform and architecture but a different version. -/
def demoteOthers (db : List VersionRecord) (platform architecture version : String) :
    List VersionRecord :=
  db.map fun x =>
    if x.platform == platform && x.architecture == architecture &&
        x.version != version then
      { x with is_latest := false }
    else x

/-- The database effect of `processAsset` (lines 150-164): upsert the
version record, then demote the other rows of the same platform and
architecture.  Both database calls are modelled as succeeding. -/
def processAssetDb (db : List VersionRecord) (asset : Asset) (release : Release)
    (sha512 now : String) : List VersionRecord :=
  let r := versionData asset release sha512 now
  demoteOthers (upsertVersion db r) r.platform r.architecture r.version

/-- Number of rows of the pair `(p, a)` that are marked latest. -/
def latestCount (db : List VersionRecord) (p a : String) : Nat :=
  (db.filter fun x => x.platform == p && x.architecture == a && x.is_latest).length

/-- The single-latest invariant: at most one latest row per platform and
architecture pair. -/
def singleLatest (db : List VersionRecord) : Prop :=
  ∀ p a, latestCount db p a ≤ 1

/-- Well-formedness granted by the table's unique constraint on the upsert
conflict key: no two rows share `(version, platform, architecture)`. -/
def uniqueKeys (db : List VersionRecord) : Prop :=
  db.Pairwise (fun x y => sameKey x y = false)

/-- The `url: <assetFileName>` search pattern of `getSHA512FromYml`. -/
def urlPat (assetName : String) : List Char :=
  ("url: " ++ assetName).toList

/-- The `sha512:` marker. -/
def sha512Marker : List Char := "sha512:".toList

/-- The scanning loop of `getSHA512FromYml` (lines 215-229): walk the lines;
at a line containing the url pattern, return the trimmed
`split('sha512:')[1]` of the next line when that next line contains
`sha512:`; otherwise keep walking; `none` models the final throw. -/
def scanYml (pat : List Char) : List (List Char) → Option (List Char)
  | [] => none
  | line :: rest =>
    if charsContains pat line then
      match rest with
      | next :: _ =>
        if charsContains sha512Marker next then
          some (trimChars (jsSplitSecond sha512Marker next))
        else
          scanYml pat rest
      | [] => scanYml pat rest
    else
      scanYml pat rest

/-- `getSHA512FromYml` restricted to a manifest text already in hand:
split the content into lines and scan. -/
def getSHA512Scan (assetName content : String) : Option String :=
  (scanYml (urlPat assetName) (splitLinesChars content.toList)).map String.mk

/-- The network responses the script can observe, passed in as values:
statuses and bodies for the two release lookups, and per-asset-id status
and text for the manifest download. -/
structure Api where
  tagStatus : Nat
  tagBody : Release
  idStatus : Nat
  idBody : Release
  assetFetch : Nat → Nat × String

/-- `response.ok`: HTTP status in the 2xx range. -/
def responseOk (status : Nat) : Bool :=
  200 ≤ status && status < 300

/-- `fetchReleaseByTag` (lines 87-109): on a 2xx response return the release;
on 404 return `null` (modelled `none`); any other status throws. -/
def fetchReleaseByTag (api : Api) : Except String (Option Release) :=
  if responseOk api.tagStatus then .ok (some api.tagBody)
  else if api.tagStatus == 404 then .ok none
  else .error ("GitHub API error: " ++ toString api.tagStatus)

/-- `fetchReleaseById` (lines 67-85): any non-2xx response throws. -/
def fetchReleaseById (api : Api) : Except String Release :=
  if responseOk api.idStatus then .ok api.idBody
  else .error ("GitHub API error: " ++ toString api.idStatus)

/-- Full `getSHA512FromYml` (lines 183-246): find the sibling manifest asset
`latest-<arch>-mac.yml`, download it, scan for the hash; every
unsuccessful path throws. -/
def getSHA512FromYml (api : Api) (asset : Asset) (release : Release) :
    Except String String :=
  let assetPlatform := if jsIncludes asset.name "arm64" then "arm64" else "x64"
  match release.assets.find? (fun a => a.name == "latest-" ++ assetPlatform ++ "-mac.yml") with
  | some ymlAsset =>
    let resp := api.assetFetch ymlAsset.id
    if responseOk resp.1 then
      match getSHA512Scan asset.name resp.2 with
      | some h => .ok h
      | none => .error ("SHA512 not found in yml for " ++ asset.name)
    else
      .error ("Failed to fetch yml file: " ++ toString resp.1)
  | none => .error ("SHA512 not found in yml for " ++ asset.name)

/-- `processAsset` (lines 124-167): resolve the hash, then write. -/
def processAsset (api : Api) (db : List VersionRecord) (asset : Asset)
    (release : Release) (now : String) : Except String (List VersionRecord) :=
  (getSHA512FromYml api asset release).map fun sha512 =>
    processAssetDb db asset release sha512 now

/-- The per-asset loop of `syncReleaseToSupabase` (lines 48-53): process the
assets passing `isAppAsset` in order, stopping at the first thrown error. -/
def processAssets (api : Api) (release : Release) (now : String) :
    List VersionRecord → List Asset → Except String (List VersionRecord)
  | db, [] => .ok db
  | db, a :: rest =>
    if isAppAsset a then
      match processAsset api db a release now with
      | .error e => .error e
      | .ok db2 => processAssets api release now db2 rest
    else
      processAssets api release now db rest

/-- The environment variables the script reads. -/
structure Env where
  supabaseUrl : Option String
  supabaseKey : Option String
  releaseTag : String
  releaseId : Option String
  isManualTrigger : Bool

/-- Outcome of one run: `exit1 msg` models the catch block printing the
error and calling `process.exit(1)`; `done db` models a completed run
(exit code 0) with the resulting table. -/
inductive RunResult where
  | exit1 (msg : String)
  | done (db : List VersionRecord)
deriving DecidableEq

/-- `syncReleaseToSupabase` (lines 11-65): credential check, release lookup
(by id when a release id is set and the trigger is not manual, else by
tag), the "Release not found" throw on a null release, the draft skip, and
the asset loop.  Any thrown error is caught and ends in `exit1`. -/
def syncReleaseToSupabase (env : Env) (api : Api) (now : String)
    (db : List VersionRecord) : RunResult :=
  if !(jsTruthy env.supabaseUrl) || !(jsTruthy env.supabaseKey) then
    .exit1 "Missing Supabase credentials"
  else
    let releaseRes : Except String (Option Release) :=
      if jsTruthy env.releaseId && !env.isManualTrigger then
        (fetchReleaseById api).map some
      else
        fetchReleaseByTag api
    match releaseRes with
    | .error e => .exit1 e
    | .ok none => .exit1 ("Release not found: " ++ env.releaseTag)
    | .ok (some release) =>
      if release.draft then .done db
      else
        match processAssets api release now db release.assets with
        | .error e => .exit1 e
        | .ok db2 => .done db2

/-- The latest-row predicate counted by `latestCount`. -/
def latestFor (p a : String) (x : VersionRecord) : Bool :=
  x.platform == p && x.architecture == a && x.is_latest

lemma latestCount_eq (db : List VersionRecord) (p a : String) :
    latestCount db p a = (db.filter (latestFor p a)).length := rfl

/-- Mapping a function that can only lose a property `q` does not increase
the count of `q2`-elements, when `q` after the map implies `q2` before. -/
lemma length_filter_map_le {α β : Type} (f : α → β) (q : β → Bool) (q2 : α → Bool)
    (h : ∀ x, q (f x) = true → q2 x = true) :
    ∀ l : List α, ((l.map f).filter q).length ≤ (l.filter q2).length := by
  intro l
  induction l with
  | nil => simp
  | cons c t ih =>
    simp only [List.map_cons, List.filter_cons]
    cases hq : q (f c)
    · cases hq2 : q2 c
      · simpa using ih
      · simpa using Nat.le_succ_of_le ih
    · have hq2 := h c hq
      simpa [hq2] using ih

/-- `sameKey` is equality of the `(version, platform, architecture)` triples. -/
lemma sameKey_iff (x y : VersionRecord) :
    sameKey x y = true ↔
      (x.version = y.version ∧ x.platform = y.platform ∧
        x.architecture = y.architecture) := by
  simp [sameKey, Bool.and_eq_true, and_assoc]

/-- In a table with unique keys, at most one row matches a given key. -/
lemma count_key_le_one {l : List VersionRecord} (hu : uniqueKeys l)
    (r : VersionRecord) : (l.filter fun x => sameKey x r).length ≤ 1 := by
  induction l with
  | nil => simp
  | cons c t ih =>
    rcases List.pairwise_cons.mp hu with ⟨hc, ht⟩
    cases h : sameKey c r
    · simpa [h] using ih ht
    · have hnone : ∀ x ∈ t, ¬(sameKey x r = true) := by
        intro x hx hxr
        have hcx := hc x hx
        rcases (sameKey_iff x r).mp hxr with ⟨h1, h2, h3⟩
        rcases (sameKey_iff c r).mp h with ⟨g1, g2, g3⟩
        have : sameKey c x = true := by
          rw [sameKey_iff]
          exact ⟨g1.trans h1.symm, g2.trans h2.symm, g3.trans h3.symm⟩
        rw [hcx] at this
        exact Bool.false_ne_true this
      have : t.filter (fun x => sameKey x r) = [] := by
        rw [List.filter_eq_nil_iff]
        exact hnone
      simp [h, this]

/-- After an upsert into a unique-key table, at most one row carries the
upserted key. -/
lemma upsert_key_count {db : List VersionRecord} (hu : uniqueKeys db)
    (r : VersionRecord) :
    ((upsertVersion db r).filter fun x => sameKey x r).length ≤ 1 := by
  unfold upsertVersion
  by_cases hc : db.any (fun x => sameKey x r) = true
  · simp only [hc, if_true]
    refine le_trans (length_filter_map_le _ _ (fun x => sameKey x r) ?_ db)
      (count_key_le_one hu r)
    intro x hx
    by_cases hxr : sameKey x r = true
    · exact hxr
    · simp only [Bool.not_eq_true] at hxr
      simp [hxr] at hx
  · simp only [hc, if_false]
    have hz : db.filter (fun x => sameKey x r) = [] := by
      rw [List.filter_eq_nil_iff]
      intro x hx hxr
      exact hc (List.any_eq_true.mpr ⟨x, hx, hxr⟩)
    rcases h : sameKey r r
    · simp [List.filter_append, hz, h]
    · simp [List.filter_append, hz, h]

/-- Every latest row for the processed pair after the demotion carries the
upserted key, so the demoted table has at most as many latest rows for
that pair as the upsert result has rows of that key. -/
lemma demote_latest_le_key (l : List VersionRecord) (r : VersionRecord) :
    latestCount (demoteOthers l r.platform r.architecture r.version)
        r.platform r.architecture ≤
      (l.filter fun x => sameKey x r).length := by
  rw [latestCount_eq]
  unfold demoteOthers
  refine length_filter_map_le _ _ (fun x => sameKey x r) ?_ l
  intro x hx
  cases hcond : (x.platform == r.platform && x.architecture == r.architecture &&
      x.version != r.version)
  · simp [hcond] at hx
    simp only [latestFor, Bool.and_eq_true, beq_iff_eq] at hx
    rcases hx with ⟨⟨hp, ha⟩, _⟩
    simp [hp, ha] at hcond
    rw [sameKey_iff]
    exact ⟨hcond, hp, ha⟩
  · simp [hcond, latestFor] at hx

/-- Demotion never creates a latest row for any pair. -/
lemma demote_latest_le (l : List VersionRecord) (P A V p a : String) :
    latestCount (demoteOthers l P A V) p a ≤ latestCount l p a := by
  rw [latestCount_eq, latestCount_eq]
  unfold demoteOthers
  refine length_filter_map_le _ _ (latestFor p a) ?_ l
  intro x hx
  cases hcond : (x.platform == P && x.architecture == A && x.version != V)
  · simpa [hcond] using hx
  · simp [hcond, latestFor] at hx

/-- An upsert does not increase the latest count of pairs other than the
upserted row's own pair. -/
lemma upsert_latest_le_of_ne {p a : String} (db : List VersionRecord)
    (r : VersionRecord) (hne : ¬(r.platform = p ∧ r.architecture = a)) :
    latestCount (upsertVersion db r) p a ≤ latestCount db p a := by
  have hr : latestFor p a r = false := by
    simp only [latestFor, Bool.and_eq_true, beq_iff_eq, Bool.and_eq_false_iff]
    by_cases hp : r.platform = p
    · by_cases ha : r.architecture = a
      · exact absurd ⟨hp, ha⟩ hne
      · exact Or.inl (Or.inr (by simp [ha]))
    · exact Or.inl (Or.inl (by simp [hp]))
  rw [latestCount_eq, latestCount_eq]
  unfold upsertVersion
  by_cases hc : db.any (fun x => sameKey x r) = true
  · simp only [hc, if_true]
    refine length_filter_map_le _ _ (latestFor p a) ?_ db
    intro x hx
    cases hxr : sameKey x r
    · simpa [hxr] using hx
    · simp [hxr, hr] at hx
  · simp only [hc, if_false]
    simp [List.filter_append, hr]

/-- Core preservation argument: processing one record through upsert plus
demotion keeps the single-latest invariant of a unique-key table. -/
lemma singleLatest_step {db : List VersionRecord} (r : VersionRecord)
    (hu : uniqueKeys db) (hs : singleLatest db) :
    singleLatest (demoteOthers (upsertVersion db r) r.platform r.architecture
      r.version) := by
  intro p a
  by_cases hpa : r.platform = p ∧ r.architecture = a
  · rcases hpa with ⟨hp, ha⟩
    subst hp
    subst ha
    exact le_trans (demote_latest_le_key (upsertVersion db r) r)
      (upsert_key_count hu r)
  · exact le_trans (demote_latest_le (upsertVersion db r) _ _ _ p a)
      (le_trans (upsert_latest_le_of_ne db r hpa) (hs p a))

/-- A substring match survives mapping a character function over both sides
(startsWith part). -/
lemma startsWithChars_map (f : Char → Char) (p : List Char) :
    ∀ s, startsWithChars p s = true → startsWithChars (p.map f) (s.map f) = true := by
  induction p with
  | nil => intro s _; simp [startsWithChars]
  | cons pc pt ih =>
    intro s h
    cases s with
    | nil => simp [startsWithChars] at h
    | cons c cs =>
      simp only [startsWithChars, Bool.and_eq_true, beq_iff_eq] at h
      rcases h with ⟨h1, h2⟩
      subst h1
      simp only [List.map_cons, startsWithChars, Bool.and_eq_true, beq_self_eq_true,
        true_and]
      exact ih cs h2

/-- A substring match survives mapping a character function over both sides;
this is why the lowercased filter still sees an uppercase `.DMG`. -/
lemma charsContains_map (f : Char → Char) (pat : List Char) :
    ∀ s, charsContains pat s = true → charsContains (pat.map f) (s.map f) = true := by
  intro s
  induction s with
  | nil =>
    intro h
    simp only [charsContains, List.isEmpty_iff] at h
    subst h
    simp [charsContains]
  | cons c t ih =>
    intro h
    simp only [charsContains, Bool.or_eq_true] at h
    simp only [List.map_cons, charsContains, Bool.or_eq_true]
    rcases h with h | h
    · have := startsWithChars_map f pat (c :: t) h
      simp only [List.map_cons] at this
      exact Or.inl this
    · exact Or.inr (ih h)

/-- `replace(pat, "")` is the identity when `pat` does not occur. -/
lemma jsReplaceOnceChars_of_not_contains (pat : List Char) :
    ∀ s, charsContains pat s = false → jsReplaceOnceChars pat s = s := by
  intro s
  induction s with
  | nil => intro _; rfl
  | cons c t ih =>
    intro h
    simp only [charsContains, Bool.or_eq_false_iff] at h
    rcases h with ⟨h1, h2⟩
    simp [jsReplaceOnceChars, h1, ih h2]

/-- `replace(pat, "")` drops the leading `pat` when the string starts with it. -/
lemma jsReplaceOnceChars_of_starts (pat s : List Char)
    (h : startsWithChars pat s = true) :
    jsReplaceOnceChars pat s = s.drop pat.length := by
  cases s with
  | nil =>
    cases pat with
    | nil => rfl
    | cons p ps => simp [startsWithChars] at h
  | cons c t => simp [jsReplaceOnceChars, h]

/-- `beforeFirst` is the identity when the separator does not occur. -/
lemma beforeFirst_of_not_contains (sep : List Char) :
    ∀ s, charsContains sep s = false → beforeFirst sep s = s := by
  intro s
  induction s with
  | nil => intro _; rfl
  | cons c t ih =>
    intro h
    simp only [charsContains, Bool.or_eq_false_iff] at h
    rcases h with ⟨h1, h2⟩
    simp [beforeFirst, h1, ih h2]

/-- The scan returns the hash of the first url-matching line once no earlier
line matches and the following line carries the marker. -/
lemma scanYml_first_match (pat : List Char) (pre : List (List Char))
    (line next : List Char) (rest : List (List Char))
    (hpre : ∀ l ∈ pre, charsContains pat l = false)
    (hline : charsContains pat line = true)
    (hnext : charsContains sha512Marker next = true) :
    scanYml pat (pre ++ line :: next :: rest) =
      some (trimChars (jsSplitSecond sha512Marker next)) := by
  induction pre with
  | nil =>
    simp only [List.nil_append, scanYml]
    simp [hline, hnext]
  | cons p ps ih =>
    have hp := hpre p (by simp)
    simp only [List.cons_append, scanYml, hp]
    simp only [Bool.false_eq_true, if_false]
    exact ih fun l hl => hpre l (by simp [hl])

/-- Sample asset of the 1.2.0 scenario run. -/
def assetDmg12 : Asset :=
  ⟨"PhotoPick-1.2.0-x64.dmg", 11, "https://example.test/12.dmg", 100⟩

/-- Sample release `v1.2.0`. -/
def releaseV12 : Release :=
  ⟨"v1.2.0", 500, false, some "notes 1.2.0", some "2026-01-01T00:00:00Z",
    "2026-01-01T00:00:00Z", [assetDmg12]⟩

/-- Sample asset of the 1.3.0 scenario run. -/
def assetDmg13 : Asset :=
  ⟨"PhotoPick-1.3.0-x64.dmg", 21, "https://example.test/13.dmg", 101⟩

/-- Sample release `v1.3.0`. -/
def releaseV13 : Release :=
  ⟨"v1.3.0", 600, false, some "notes 1.3.0", some "2026-02-01T00:00:00Z",
    "2026-02-01T00:00:00Z", [assetDmg13]⟩

/-- Sample environment for a manual tag-based run. -/
def envTagRun : Env :=
  ⟨some "https://db.example.test", some "service-key", "v9.9.9", none, true⟩

/-- Sample API state whose tag lookup answers 404. -/
def apiTag404 : Api :=
  ⟨404, releaseV13, 200, releaseV13, fun _ => (200, "")⟩

/-- Claim C1: a filename ending in `.AppImage` passes none of the excluded
patterns and its lowercased form contains `.appimage`, yet `isAppAsset`
rejects it: the filter compares the lowercased name against the literal
`.AppImage`, which can never occur in a lowercased string, so the
`.AppImage` entry of `appExtensions` is dead and the claimed acceptance
fails. -/
theorem c1_appimage_rejected :
    jsIncludes (jsToLower "app.AppImage") ".appimage" = true ∧
    (excludedPatterns.all fun p => !(jsIncludes (jsToLower "app.AppImage") p)) = true ∧
    jsIncludes (jsToLower "app.AppImage") ".AppImage" = false ∧
    isAppAsset ⟨"app.AppImage", 7, "https://example.test/app.AppImage", 10⟩ = false := by
  decide

/-- Claim C4 (counterexample): the tag `1.0-dev` does not start with `v`,
yet the persisted version string is `1.0-de`, not the unchanged tag:
JS `replace('v', '')` removes the first `v` anywhere in the string. -/
theorem c4_counterexample :
    startsWithChars "v".toList "1.0-dev".toList = false ∧
    (versionData ⟨"a.dmg", 1, "u", 5⟩ ⟨"1.0-dev", 2, false, none, none, "c", []⟩
        "h" "t").version = "1.0-de" ∧
    ("1.0-de" : String) ≠ "1.0-dev" := by
  decide

/-- Claim C4 (amended): the persisted version string is the tag with the
first occurrence of `v` anywhere removed; hence a tag starting with `v`
loses exactly that leading `v`, and a tag containing no `v` at all is
persisted unchanged. -/
theorem c4_version_strip (asset : Asset) (release : Release) (sha512 now : String) :
    (versionData asset release sha512 now).version =
      jsReplaceOnce release.tag_name "v" ∧
    (charsContains "v".toList release.tag_name.toList = false →
      (versionData asset release sha512 now).version = release.tag_name) ∧
    (startsWithChars "v".toList release.tag_name.toList = true →
      (versionData asset release sha512 now).version =
        String.mk (release.tag_name.toList.drop 1)) := by
  refine ⟨rfl, ?_, ?_⟩
  · intro h
    show String.mk (jsReplaceOnceChars "v".toList release.tag_name.toList) =
      release.tag_name
    rw [jsReplaceOnceChars_of_not_contains _ _ h]
    rfl
  · intro h
    show String.mk (jsReplaceOnceChars "v".toList release.tag_name.toList) =
      String.mk (release.tag_name.toList.drop 1)
    rw [jsReplaceOnceChars_of_starts _ _ h]
    have hone : "v".toList.length = 1 := rfl
    rw [hone]

/-- Claim C4 witness: the implications at concrete tags `1.0.0-rc` (no `v`
anywhere) and `v1.3.0` (leading `v`). -/
theorem c4_version_strip_witness :
    (versionData ⟨"a.dmg", 1, "u", 5⟩ ⟨"1.0.0-rc", 2, false, none, none, "c", []⟩
        "h" "t").version = "1.0.0-rc" ∧
    (versionData assetDmg13 releaseV13 "h" "t").version =
      String.mk ("v1.3.0".toList.drop 1) :=
  ⟨(c4_version_strip ⟨"a.dmg", 1, "u", 5⟩ ⟨"1.0.0-rc", 2, false, none, none, "c", []⟩
      "h" "t").2.1 (by decide),
   (c4_version_strip assetDmg13 releaseV13 "h" "t").2.2 (by decide)⟩

/-- Claim C7: `detectArchitecture` is total into `{arm64, x64, ia32}`,
checks `arm64`, then `x64`/`x86_64`, then `ia32`/`i386` in that order with
the first match winning, and defaults to `x64`. -/
theorem c7_detect_architecture (f : String) :
    (detectArchitecture f = "arm64" ∨ detectArchitecture f = "x64" ∨
      detectArchitecture f = "ia32") ∧
    (jsIncludes f "arm64" = true → detectArchitecture f = "arm64") ∧
    (jsIncludes f "arm64" = false →
      (jsIncludes f "x64" || jsIncludes f "x86_64") = true →
      detectArchitecture f = "x64") ∧
    (jsIncludes f "arm64" = false →
      (jsIncludes f "x64" || jsIncludes f "x86_64") = false →
      (jsIncludes f "ia32" || jsIncludes f "i386") = true →
      detectArchitecture f = "ia32") ∧
    (jsIncludes f "arm64" = false →
      (jsIncludes f "x64" || jsIncludes f "x86_64") = false →
      (jsIncludes f "ia32" || jsIncludes f "i386") = false →
      detectArchitecture f = "x64") := by
  unfold detectArchitecture
  refine ⟨?_, ?_, ?_, ?_, ?_⟩
  · split_ifs <;> simp
  · intro h
    simp [h]
  · intro h1 h2
    simp [h1, h2]
  · intro h1 h2 h3
    simp [h1, h2, h3]
  · intro h1 h2 h3
    simp [h1, h2, h3]

/-- Claim C7 witness: the default at `app-1.0.0.dmg`, which contains no
recognized architecture substring. -/
theorem c7_detect_architecture_witness :
    detectArchitecture "app-1.0.0.dmg" = "x64" :=
  (c7_detect_architecture "app-1.0.0.dmg").2.2.2.2 (by decide) (by decide) (by decide)

/-- Claim C8: the url-line match is substring containment, not equality: on
a manifest whose only url line names `app.exe.blockmap`, resolving
`app.exe` matches that line and returns the hash on the next line. -/
theorem c8_substring_url_match :
    jsIncludes "url: app.exe.blockmap" "url: app.exe" = true ∧
    ("app.exe.blockmap" : String) ≠ "app.exe" ∧
    charsContains (urlPat "app.exe") "sha512: HH".toList = false ∧
    getSHA512Scan "app.exe" "url: app.exe.blockmap\nsha512: HH" = some "HH" := by
  decide

/-- Claim C10: when the release body is absent or the empty string (both
falsy under JS `||`), the persisted release notes are `Version ` followed
by the full tag name, leading `v` included. -/
theorem c10_release_notes_default (asset : Asset) (release : Release)
    (sha512 now : String) (h : release.body = none ∨ release.body = some "") :
    (versionData asset release sha512 now).release_notes =
      "Version " ++ release.tag_name := by
  rcases h with h | h <;> simp [versionData, jsOrElse, h]

/-- Claim C10 witness: an absent body and an empty body at tag `v2.0.0`. -/
theorem c10_release_notes_default_witness :
    (versionData ⟨"a.dmg", 1, "u", 5⟩ ⟨"v2.0.0", 2, false, none, none, "c", []⟩
        "h" "t").release_notes = "Version " ++ "v2.0.0" ∧
    (versionData ⟨"a.dmg", 1, "u", 5⟩ ⟨"v2.0.0", 2, false, some "", none, "c", []⟩
        "h" "t").release_notes = "Version " ++ "v2.0.0" :=
  ⟨c10_release_notes_default ⟨"a.dmg", 1, "u", 5⟩ ⟨"v2.0.0", 2, false, none, none, "c", []⟩
      "h" "t" (Or.inl rfl),
   c10_release_notes_default ⟨"a.dmg", 1, "u", 5⟩ ⟨"v2.0.0", 2, false, some "", none, "c", []⟩
      "h" "t" (Or.inr rfl)⟩

/-- Claim C2: from any unique-key table in which at most one row per
`(platform, architecture)` pair is marked latest, the upsert-then-demote
persistence step preserves that invariant; and the concrete 1.2.0 then
1.3.0 run for `(darwin, x64)` ends with exactly the 1.3.0 row latest for
that pair. -/
theorem c2_single_latest_invariant :
    (∀ (db : List VersionRecord) (asset : Asset) (release : Release)
        (sha512 now : String), uniqueKeys db → singleLatest db →
        singleLatest (processAssetDb db asset release sha512 now)) ∧
    ((processAssetDb (processAssetDb [] assetDmg12 releaseV12 "hash12" "t1")
        assetDmg13 releaseV13 "hash13" "t2").filter
          (fun x => x.platform == "darwin" && x.architecture == "x64" && x.is_latest)).map
        (fun x => (x.version, x.is_latest)) = [("1.3.0", true)] := by
  constructor
  · intro db asset release sha512 now hu hs
    unfold processAssetDb
    exact singleLatest_step _ hu hs
  · decide

/-- Claim C2 witness: the preservation applied to the empty table and the
1.2.0 release. -/
theorem c2_single_latest_invariant_witness :
    singleLatest (processAssetDb [] assetDmg12 releaseV12 "hash12" "t1") :=
  c2_single_latest_invariant.1 [] assetDmg12 releaseV12 "hash12" "t1"
    List.Pairwise.nil (fun p a => by simp [latestCount])

/-- Claim C3 (counterexample): a manifest whose first url-matching line is
followed by a line without `sha512:` does not make the resolver fail: the
scan continues and returns the hash of a later matching url line. -/
theorem c3_counterexample :
    charsContains (urlPat "app.exe") "url: app.exe".toList = true ∧
    charsContains sha512Marker "zzz".toList = false ∧
    getSHA512Scan "app.exe" "url: app.exe\nzzz\nurl: app.exe\nsha512: XYZ" =
      some "XYZ" ∧
    getSHA512Scan "app.exe" "url: app.exe\nzzz\nurl: app.exe\nsha512: XYZ" ≠
      none := by
  decide

/-- Claim C3 (amended): when a url-matching line is followed by a line not
containing `sha512:`, the scan skips that match and continues with the
following lines; it fails only when the whole rest of the manifest yields
no match (the trailing `[]` case of `scanYml`). -/
theorem c3_scan_continues (assetName : String) (line next : List Char)
    (rest : List (List Char))
    (h1 : charsContains (urlPat assetName) line = true)
    (h2 : charsContains sha512Marker next = false) :
    scanYml (urlPat assetName) (line :: next :: rest) =
      scanYml (urlPat assetName) (next :: rest) := by
  simp only [scanYml, h1]
  simp [h2]

/-- Claim C3 witness: the skip equation at a concrete two-line manifest. -/
theorem c3_scan_continues_witness :
    scanYml (urlPat "app.exe") ["url: app.exe".toList, "zzz".toList] =
      scanYml (urlPat "app.exe") ["zzz".toList] :=
  c3_scan_continues "app.exe" "url: app.exe".toList "zzz".toList []
    (by decide) (by decide)

/-- Claim C5 (counterexample): when the line after the url match contains
`sha512:` twice, the resolver returns only the segment up to the second
marker (JS `split('sha512:')[1]`), not everything after the first marker
as the claim states. -/
theorem c5_counterexample :
    charsContains sha512Marker "sha512: AA sha512: BB".toList = true ∧
    getSHA512Scan "app-x64.exe" "url: app-x64.exe\nsha512: AA sha512: BB" =
      some "AA" ∧
    String.mk (trimChars (afterFirst sha512Marker "sha512: AA sha512: BB".toList)) =
      "AA sha512: BB" ∧
    ("AA" : String) ≠ "AA sha512: BB" := by
  decide

/-- Claim C5 (amended): at the first url-matching line whose successor
contains `sha512:`, the scan returns the trimmed `split('sha512:')[1]` of
that successor, which is the segment between the first marker and the next
occurrence of the marker; when the marker occurs only once it is
everything after the marker, and the spec's concrete `ABC123` example
holds as stated. -/
theorem c5_hash_extraction :
    (∀ (assetName : String) (pre : List (List Char)) (line next : List Char)
        (rest : List (List Char)),
        (∀ l ∈ pre, charsContains (urlPat assetName) l = false) →
        charsContains (urlPat assetName) line = true →
        charsContains sha512Marker next = true →
        scanYml (urlPat assetName) (pre ++ line :: next :: rest) =
          some (trimChars (jsSplitSecond sha512Marker next))) ∧
    (∀ next : List Char,
        charsContains sha512Marker (afterFirst sha512Marker next) = false →
        jsSplitSecond sha512Marker next = afterFirst sha512Marker next) ∧
    getSHA512Scan "app-x64.exe" "url: app-x64.exe\nsha512: ABC123\n" =
      some "ABC123" := by
  refine ⟨?_, ?_, by decide⟩
  · intro assetName pre line next rest hpre hline hnext
    exact scanYml_first_match (urlPat assetName) pre line next rest hpre hline hnext
  · intro next h
    unfold jsSplitSecond
    exact beforeFirst_of_not_contains _ _ h

/-- Claim C5 witness: the extraction at a concrete manifest with one blank
line before the match, and the single-marker equation on that line. -/
theorem c5_hash_extraction_witness :
    scanYml (urlPat "app-x64.exe")
        [[], "url: app-x64.exe".toList, "sha512: ABC123".toList] =
      some (trimChars (jsSplitSecond sha512Marker "sha512: ABC123".toList)) ∧
    jsSplitSecond sha512Marker "sha512: ABC123".toList =
      afterFirst sha512Marker "sha512: ABC123".toList :=
  ⟨c5_hash_extraction.1 "app-x64.exe" [[]] "url: app-x64.exe".toList
      "sha512: ABC123".toList [] (by decide) (by decide) (by decide),
   c5_hash_extraction.2.1 "sha512: ABC123".toList (by decide)⟩

/-- Claim C6: the tag lookup answers `null` exactly on a 404 response and
throws on every other non-2xx status; and with credentials present and the
tag path selected, a 404 makes the whole run exit with code 1 on the
`Release not found` error. -/
theorem c6_tag_404_exit1 :
    (∀ api : Api, fetchReleaseByTag api = .ok none ↔ api.tagStatus = 404) ∧
    (∀ api : Api, responseOk api.tagStatus = false → api.tagStatus ≠ 404 →
      fetchReleaseByTag api =
        .error ("GitHub API error: " ++ toString api.tagStatus)) ∧
    (∀ (env : Env) (api : Api) (now : String) (db : List VersionRecord),
      jsTruthy env.supabaseUrl = true → jsTruthy env.supabaseKey = true →
      (jsTruthy env.releaseId && !env.isManualTrigger) = false →
      api.tagStatus = 404 →
      syncReleaseToSupabase env api now db =
        .exit1 ("Release not found: " ++ env.releaseTag)) := by
  have h404 : ∀ api : Api, api.tagStatus = 404 →
      fetchReleaseByTag api = .ok none := by
    intro api h
    unfold fetchReleaseByTag
    rw [h]
    have hok : responseOk 404 = false := by decide
    simp [hok]
  refine ⟨?_, ?_, ?_⟩
  · intro api
    constructor
    · intro h
      unfold fetchReleaseByTag at h
      cases h1 : responseOk api.tagStatus
      · simp only [h1, Bool.false_eq_true, if_false] at h
        cases h2 : (api.tagStatus == 404)
        · simp [h2] at h
        · exact eq_of_beq h2
      · simp [h1] at h
    · exact h404 api
  · intro api h1 h2
    unfold fetchReleaseByTag
    simp only [h1, Bool.false_eq_true, if_false]
    have : (api.tagStatus == 404) = false := by
      simpa using h2
    simp [this]
  · intro env api now db hurl hkey hpath h404s
    unfold syncReleaseToSupabase
    rw [hurl, hkey, hpath]
    simp only [Bool.not_true, Bool.or_self, Bool.false_eq_true, if_false]
    rw [h404 api h404s]

/-- Claim C6 witness: the 404 path at a concrete manual tag run. -/
theorem c6_tag_404_exit1_witness :
    fetchReleaseByTag apiTag404 = .ok none ∧
    syncReleaseToSupabase envTagRun apiTag404 "t" [] =
      .exit1 ("Release not found: " ++ "v9.9.9") :=
  ⟨(c6_tag_404_exit1.1 apiTag404).mpr rfl,
   c6_tag_404_exit1.2.2 envTagRun apiTag404 "t" [] (by decide) (by decide)
     (by decide) rfl⟩

/-- Claim C9 (counterexample): the claim fails for a name that carries an
uppercase `.DMG` but also a lowercase `.dmg`: such an asset is accepted
and assigned platform `darwin`, not `unknown`. -/
theorem c9_counterexample :
    jsIncludes "a.DMG.dmg" ".DMG" = true ∧
    (excludedPatterns.all fun p => !(jsIncludes (jsToLower "a.DMG.dmg") p)) = true ∧
    isAppAsset ⟨"a.DMG.dmg", 3, "https://example.test/a", 9⟩ = true ∧
    detectPlatform "a.DMG.dmg" = "darwin" ∧
    ("darwin" : String) ≠ "unknown" := by
  decide

/-- Claim C9 (amended): an asset whose name contains `.DMG` or `.EXE`, no
excluded pattern in its lowercased form, and none of the exact-case
platform substrings `.dmg`, `.exe`, `.AppImage`, `.deb`, is accepted by
the lowercasing `isAppAsset` yet mapped to platform `unknown` by the
case-sensitive `detectPlatform`. -/
theorem c9_case_mismatch (a : Asset)
    (h1 : jsIncludes a.name ".DMG" = true ∨ jsIncludes a.name ".EXE" = true)
    (h2 : ∀ p ∈ excludedPatterns, jsIncludes (jsToLower a.name) p = false)
    (h3 : jsIncludes a.name ".dmg" = false)
    (h4 : jsIncludes a.name ".exe" = false)
    (h5 : jsIncludes a.name ".AppImage" = false)
    (h6 : jsIncludes a.name ".deb" = false) :
    isAppAsset a = true ∧ detectPlatform a.name = "unknown" := by
  constructor
  · unfold isAppAsset
    have hexc : excludedPatterns.any
        (fun pattern => jsIncludes (jsToLower a.name) pattern) = false := by
      rw [List.any_eq_false]
      intro p hp
      simp [h2 p hp]
    have hext : appExtensions.any
        (fun ext => jsIncludes (jsToLower a.name) ext) = true := by
      rcases h1 with h | h
      · refine List.any_eq_true.mpr ⟨".dmg", by simp [appExtensions], ?_⟩
        have hmap := charsContains_map Char.toLower ".DMG".toList a.name.toList h
        have heq : ".DMG".toList.map Char.toLower = ".dmg".toList := by decide
        rw [heq] at hmap
        exact hmap
      · refine List.any_eq_true.mpr ⟨".exe", by simp [appExtensions], ?_⟩
        have hmap := charsContains_map Char.toLower ".EXE".toList a.name.toList h
        have heq : ".EXE".toList.map Char.toLower = ".exe".toList := by decide
        rw [heq] at hmap
        exact hmap
    simp [hexc, hext]
  · unfold detectPlatform
    simp [h3, h4, h5, h6]

/-- Claim C9 witness: the mismatch at the concrete name `Installer.DMG`. -/
theorem c9_case_mismatch_witness :
    isAppAsset ⟨"Installer.DMG", 4, "https://example.test/i", 9⟩ = true ∧
    detectPlatform "Installer.DMG" = "unknown" :=
  c9_case_mismatch ⟨"Installer.DMG", 4, "https://example.test/i", 9⟩
    (Or.inl (by decide)) (by decide) (by decide) (by decide) (by decide)
    (by decide)
